import Mathlib

/-!
Shallow embedding of `src/pokedec/train.py` (repository dtu-degens/MLOps_2025).

The script `train.py` defines a single function `train_model` that fine-tunes a
pretrained classifier: it optionally initialises a Weights & Biases run, loads a
model and data loaders, runs a train/validate loop for `num_epochs` epochs with
an `AdamW` optimizer and a `StepLR(step_size=5, gamma=0.1)` scheduler, logs
per-epoch metrics, and finally (when tracking is enabled) saves a checkpoint and
optionally exports the model to ONNX.

The embedding below models the framework calls (forward pass, loss, backward,
optimizer step, number of correct predictions) as an abstract `Framework`
record of pure functions, threads the mutable Python locals (model parameters,
running statistics, scheduler state) as explicit state, and records every
externally visible effect (file writes, wandb calls, scheduler steps, batch
operations) in an event trace.  Divisions that Python leaves unguarded
(ZeroDivisionError) are modelled with `Option`: `none` is a fault that aborts
the run, mirroring the uncaught exception.
-/

namespace Pokedec

/-- A data batch produced by a loader: `size` is `labels.size(0)` (equal to
`inputs.size(0)`), `data` abstracts the tensor contents. -/
structure Batch where
  size : Nat
  data : Nat
  deriving Repr, DecidableEq

/-- The dictionary passed to `wandb.log` at line 199: exactly the four scalars
`train_loss`, `train_accuracy`, `val_loss`, `val_accuracy`. -/
structure MetricsRecord where
  train_loss : ℚ
  train_accuracy : ℚ
  val_loss : ℚ
  val_accuracy : ℚ
  deriving Repr, DecidableEq

/-- Running statistics of a phase: `running_loss`, `correct`, `total`
(lines 120-122 resp. 180-182 of train.py). -/
structure Stats where
  running_loss : ℚ
  correct : Nat
  total : Nat
  deriving Repr, DecidableEq

/-- Externally visible effects of `train_model`, in program order. -/
inductive Event where
  /-- `wandb.init` (lines 68/74); `projectSet` is true in the non-sweep branch. -/
  | evWandbInit (projectSet : Bool) (runName : String)
  /-- `setup_logging` (lines 83/91). -/
  | evSetupLogging (runId : String)
  /-- `optimizer.zero_grad()` in the training loop. -/
  | evZeroGrad
  /-- training forward pass `model(inputs)`. -/
  | evForward
  /-- training loss computation `criterion(outputs, labels)`. -/
  | evLoss
  /-- `loss.backward()`. -/
  | evBackward
  /-- `optimizer.step()`. -/
  | evOptStep
  /-- entering the `profile(...)` context manager (line 126), instrumentation. -/
  | evProfileStart
  /-- a `record_function(name)` context (lines 137-143), instrumentation. -/
  | evRecordFn (name : String)
  /-- `prof.step()` (line 146), instrumentation. -/
  | evProfStep
  /-- validation forward pass under `torch.no_grad()`. -/
  | evValForward
  /-- validation loss computation. -/
  | evValLoss
  /-- `wandb.log({...})` for a given (0-based) epoch (lines 199-201). -/
  | evWandbLog (epoch : Nat) (rec : MetricsRecord)
  /-- `scheduler.step()` (line 204). -/
  | evSchedStep
  /-- `os.makedirs(dir, exist_ok=True)`. -/
  | evMkdir (dir : String)
  /-- `torch.save(model.state_dict(), path)` (lines 212/216). -/
  | evSave (path : String)
  /-- `artifact.add_file(path)`. -/
  | evAddArtifactFile (path : String)
  /-- `run.log_artifact(artifact)` for the artifact of the given name. -/
  | evLogArtifact (name : String)
  /-- `torch.onnx.export(model, img, path, ...)` (line 239); `sampleCount` is
  the batch dimension of the traced sample input. -/
  | evOnnxExport (path : String) (sampleCount : Nat)
  /-- `wandb.finish()` (line 256). -/
  | evWandbFinish
  deriving Repr, DecidableEq

/-- Profiler instrumentation events: present only in the profiling branch. -/
def Event.isInstr : Event → Bool
  | .evProfileStart => true
  | .evRecordFn _ => true
  | .evProfStep => true
  | _ => false

/-- Checkpoint writes (`torch.save`). -/
def Event.isSave : Event → Bool
  | .evSave _ => true
  | _ => false

/-- ONNX exports. -/
def Event.isOnnx : Event → Bool
  | .evOnnxExport _ _ => true
  | _ => false

/-- Metric-log events (`wandb.log`). -/
def Event.isLog : Event → Bool
  | .evWandbLog _ _ => true
  | _ => false

/-- Scheduler steps. -/
def Event.isSchedStep : Event → Bool
  | .evSchedStep => true
  | _ => false

/-- Operations of the training-loop body proper (the non-instrumentation part
shared by both branches). -/
def Event.isTrainOp : Event → Bool
  | .evZeroGrad => true
  | .evForward => true
  | .evLoss => true
  | .evBackward => true
  | .evOptStep => true
  | _ => false

/-- Operations of the validation-loop body. -/
def Event.isValOp : Event → Bool
  | .evValForward => true
  | .evValLoss => true
  | _ => false

/-- Events that can occur inside the epoch loop (as opposed to the run
initialisation before it and the artifact-persistence epilogue after it). -/
def Event.isLoopEv : Event → Bool
  | .evWandbInit _ _ => false
  | .evSetupLogging _ => false
  | .evMkdir _ => false
  | .evSave _ => false
  | .evAddArtifactFile _ => false
  | .evLogArtifact _ => false
  | .evOnnxExport _ _ => false
  | .evWandbFinish => false
  | _ => true

/-- The epoch index of a `wandb.log` event, if the event is one. -/
def Event.logOf : Event → Option Nat
  | .evWandbLog e _ => some e
  | _ => none

/-- The 0-based epoch indices of the `wandb.log` events of a trace, in order. -/
def logEpochs (evs : List Event) : List Nat :=
  evs.filterMap Event.logOf

/-- Abstraction of the deep-learning framework calls used by the script.
`M` is the type of model parameter states, `O` the type of forward-pass
outputs. `forward` also takes the train/eval mode flag set by `model.train()`
and `model.eval()`. -/
structure Framework (M O : Type) where
  forward : Bool → M → Batch → O
  lossOf : O → Batch → ℚ
  nCorrect : O → Batch → Nat
  zeroGrad : M → M
  backward : M → ℚ → M
  optStep : ℚ → ℚ → M → M

/-- Result of a phase (train or validation) over a list of batches. -/
structure PhaseOut (M : Type) where
  params : M
  stats : Stats
  events : List Event
  deriving Repr

variable {M O : Type}

/-- One iteration of the non-profiling training loop body (lines 155-171):
`zero_grad`; forward; loss; backward; `optimizer.step()`; then the statistics
updates `running_loss += loss.item() * inputs.size(0)`,
`total += labels.size(0)`, `correct += predicted.eq(labels).sum().item()`. -/
def trainBatchPlain (fw : Framework M O) (lr wd : ℚ) (p : M) (s : Stats)
    (b : Batch) : PhaseOut M :=
  let p1 := fw.zeroGrad p
  let outputs := fw.forward true p1 b
  let loss := fw.lossOf outputs b
  let p2 := fw.backward p1 loss
  let p3 := fw.optStep lr wd p2
  { params := p3
    stats :=
      { running_loss := s.running_loss + loss * b.size
        correct := s.correct + fw.nCorrect outputs b
        total := s.total + b.size }
    events := [.evZeroGrad, .evForward, .evLoss, .evBackward, .evOptStep] }

/-- One iteration of the profiling training loop body (lines 132-152): the same
computation, with each step wrapped in a `record_function` region and a
`prof.step()` call after the optimizer step, before the statistics updates. -/
def trainBatchProf (fw : Framework M O) (lr wd : ℚ) (p : M) (s : Stats)
    (b : Batch) : PhaseOut M :=
  let p1 := fw.zeroGrad p
  let outputs := fw.forward true p1 b
  let loss := fw.lossOf outputs b
  let p2 := fw.backward p1 loss
  let p3 := fw.optStep lr wd p2
  { params := p3
    stats :=
      { running_loss := s.running_loss + loss * b.size
        correct := s.correct + fw.nCorrect outputs b
        total := s.total + b.size }
    events :=
      [.evZeroGrad,
       .evRecordFn "model_forward", .evForward,
       .evRecordFn "loss_computation", .evLoss,
       .evRecordFn "backward_pass", .evBackward,
       .evRecordFn "optimizer_step", .evOptStep,
       .evProfStep] }

/-- The body of the training phase over all training batches: the profiling
flag selects between the two loop bodies (line 124). -/
def trainBatches (fw : Framework M O) (profiling : Bool) (lr wd : ℚ) :
    List Batch → M → Stats → PhaseOut M
  | [], p, s => { params := p, stats := s, events := [] }
  | b :: rest, p, s =>
    let o1 := if profiling then trainBatchProf fw lr wd p s b
              else trainBatchPlain fw lr wd p s b
    let o2 := trainBatches fw profiling lr wd rest o1.params o1.stats
    { params := o2.params, stats := o2.stats, events := o1.events ++ o2.events }

/-- The whole training phase, including entering the `profile` context manager
when profiling is enabled (line 126). -/
def trainPhase (fw : Framework M O) (profiling : Bool) (lr wd : ℚ)
    (batches : List Batch) (p : M) (s : Stats) : PhaseOut M :=
  let o := trainBatches fw profiling lr wd batches p s
  { o with events := (if profiling then [Event.evProfileStart] else []) ++ o.events }

/-- One iteration of the validation loop body (lines 184-192), executed under
`torch.no_grad()` with the model in eval mode: forward, loss, statistics.  No
call in the body mutates the model parameters, so `params` is returned
unchanged. -/
def valBatch (fw : Framework M O) (p : M) (s : Stats) (b : Batch) :
    Stats × List Event :=
  let outputs := fw.forward false p b
  let loss := fw.lossOf outputs b
  ({ running_loss := s.running_loss + loss * b.size
     correct := s.correct + fw.nCorrect outputs b
     total := s.total + b.size },
   [.evValForward, .evValLoss])

/-- The validation phase over all validation batches (lines 183-192). -/
def valPhase (fw : Framework M O) :
    List Batch → M → Stats → PhaseOut M
  | [], p, s => { params := p, stats := s, events := [] }
  | b :: rest, p, s =>
    let (s1, ev1) := valBatch fw p s b
    let o2 := valPhase fw rest p s1
    { params := o2.params, stats := o2.stats, events := ev1 ++ o2.events }

/-- Python division by a (possibly zero) integer count: `none` models the
uncaught `ZeroDivisionError`. -/
def divOrFault (x : ℚ) (n : Nat) : Option ℚ :=
  if n = 0 then none else some (x / n)

/-- Python `correct / total` on two integers: `none` models the uncaught
`ZeroDivisionError`. -/
def natDivOrFault (a b : Nat) : Option ℚ :=
  if b = 0 then none else some ((a : ℚ) / b)

/-- Result of one epoch. -/
structure EpochOut (M : Type) where
  params : M
  metrics : MetricsRecord
  events : List Event
  deriving Repr, DecidableEq

/-- One epoch of the loop body (lines 116-204): training phase, the epoch
statistics divisions (lines 174-175), validation phase, the validation
statistics divisions (lines 194-195), the conditional `wandb.log`, and the
scheduler step.  `trainLen` and `valLen` are `len(train_loader.dataset)` and
`len(val_loader.dataset)`.  A `none` result is an uncaught fault. -/
def runEpoch (fw : Framework M O) (profiling use_wandb : Bool) (wd : ℚ)
    (trainB valB : List Batch) (trainLen valLen : Nat)
    (epoch : Nat) (lr : ℚ) (p : M) : Option (EpochOut M) :=
  let t := trainPhase fw profiling lr wd trainB p ⟨0, 0, 0⟩
  match divOrFault t.stats.running_loss trainLen with
  | none => none
  | some epoch_loss =>
    match natDivOrFault t.stats.correct t.stats.total with
    | none => none
    | some epoch_acc =>
      let v := valPhase fw valB t.params ⟨0, 0, 0⟩
      match divOrFault v.stats.running_loss valLen with
      | none => none
      | some val_loss =>
        match natDivOrFault v.stats.correct v.stats.total with
        | none => none
        | some val_acc =>
          let r : MetricsRecord :=
            { train_loss := epoch_loss, train_accuracy := epoch_acc
              val_loss := val_loss, val_accuracy := val_acc }
          some
            { params := v.params
              metrics := r
              events := t.events ++ v.events
                ++ (if use_wandb then [Event.evWandbLog epoch r] else [])
                ++ [Event.evSchedStep] }

/-- The learning rate held by `StepLR(optimizer, step_size=5, gamma=0.1)`
after `t` scheduler steps: `lr0 * 0.1 ^ (t / 5)`. -/
def schedLR (lr0 : ℚ) (t : Nat) : ℚ :=
  lr0 * (1 / 10) ^ (t / 5)

/-- The Python locals live across the loop: the run configuration
(`num_classes`, `batch_size`, `num_epochs`, `wd`), the scheduler state
(`lr0` is the base lr stored by `StepLR`, `schedCount` the number of steps
taken, `lr` the optimizer's current learning rate), the model parameters and
the accumulated event trace. -/
structure LoopState (M : Type) where
  num_classes : Nat
  batch_size : Nat
  num_epochs : Nat
  wd : ℚ
  lr0 : ℚ
  schedCount : Nat
  lr : ℚ
  params : M
  events : List Event
  deriving Repr, DecidableEq

/-- One full epoch iteration acting on the loop state: run the epoch body at
the optimizer's current learning rate, then apply the scheduler step to the
learning rate. -/
def epochStep (fw : Framework M O) (profiling use_wandb : Bool)
    (trainB valB : List Batch) (trainLen valLen : Nat)
    (epoch : Nat) (st : LoopState M) : Option (LoopState M) :=
  (runEpoch fw profiling use_wandb st.wd trainB valB trainLen valLen
      epoch st.lr st.params).map fun eo =>
    { st with
      params := eo.params
      events := st.events ++ eo.events
      schedCount := st.schedCount + 1
      lr := schedLR st.lr0 (st.schedCount + 1) }

/-- The loop `for epoch in tqdm(range(num_epochs))` (line 115), unrolled from
epoch index `e` for `n` remaining iterations. -/
def runEpochs (fw : Framework M O) (profiling use_wandb : Bool)
    (trainB valB : List Batch) (trainLen valLen : Nat) :
    Nat → Nat → LoopState M → Option (LoopState M)
  | 0, _, st => some st
  | n + 1, e, st =>
    match epochStep fw profiling use_wandb trainB valB trainLen valLen e st with
    | none => none
    | some st' => runEpochs fw profiling use_wandb trainB valB trainLen valLen n (e + 1) st'

/-- The run name f-string of lines 71/79. -/
def runName (batch_size num_epochs : Nat) (lr wd : ℚ) : String :=
  "pokedec_model_bs_" ++ toString batch_size ++ "_e_" ++ toString num_epochs
    ++ "_lr_" ++ toString lr ++ "_wd_" ++ toString wd

/-- The checkpoint output directory (lines 211/215): `models/sweep` for sweep
runs, `models/single` otherwise. -/
def saveDir (sweep : Bool) : String :=
  if sweep then "models/sweep" else "models/single"

/-- The checkpoint file path (lines 212/216), named after the run id. -/
def savePath (sweep : Bool) (runId : String) : String :=
  saveDir sweep ++ "/pokedec_model_" ++ runId ++ ".pth"

/-- The ONNX export file path (line 242), named after the run id. -/
def onnxPath (runId : String) : String :=
  "models/onnx/pokedec_model_" ++ runId ++ ".onnx"

/-- The loop state at entry of the epoch loop (lines 66-112): the wandb-init
and logging events (lines 66-91), the scheduler holding the base learning rate
(line 112), and the pretrained model parameters (line 98). -/
def initState (runId : String) (num_classes batch_size num_epochs : Nat)
    (lr wd : ℚ) (use_wandb sweep : Bool) (m0 : M) : LoopState M :=
  { num_classes := num_classes, batch_size := batch_size
    num_epochs := num_epochs, wd := wd
    lr0 := lr, schedCount := 0, lr := schedLR lr 0
    params := m0
    events :=
      if use_wandb then
        [Event.evWandbInit (!sweep) (runName batch_size num_epochs lr wd),
         Event.evSetupLogging (runName batch_size num_epochs lr wd ++ "_id_" ++ runId)]
      else [Event.evSetupLogging "dummy_run"] }

/-- The whole of `train_model` (lines 36-256).  `runId` stands for `run.id`
assigned by `wandb.init`; `m0` is the pretrained model returned by
`get_model`; `trainB` and `valB` are the batch sequences yielded by the two
loaders, which partition the respective datasets (so the dataset lengths are
the sums of the batch sizes).  The result is the event trace and the final
model parameters, or `none` when the run aborts with an uncaught fault. -/
def train_model (fw : Framework M O) (runId : String)
    (num_classes batch_size num_epochs : Nat) (lr wd : ℚ)
    (use_wandb profiling export_model sweep : Bool)
    (trainB valB : List Batch) (m0 : M) : Option (List Event × M) :=
  let trainLen := (trainB.map Batch.size).sum
  let valLen := (valB.map Batch.size).sum
  match runEpochs fw profiling use_wandb trainB valB trainLen valLen
      num_epochs 0
      (initState runId num_classes batch_size num_epochs lr wd use_wandb sweep m0) with
  | none => none
  | some st =>
    let saveEvents : List Event :=
      if use_wandb then
        [.evMkdir (saveDir sweep), .evSave (savePath sweep runId),
         .evAddArtifactFile (savePath sweep runId),
         .evLogArtifact "pokedec_models"]
      else []
    if export_model && use_wandb then
      match valB with
      | [] => none
      | b :: _ =>
        if b.size = 0 then none
        else
          some (st.events ++ saveEvents
            ++ [.evMkdir "models/onnx", .evOnnxExport (onnxPath runId) 1,
                .evAddArtifactFile (onnxPath runId),
                .evLogArtifact "pokedec_models_onnx",
                .evWandbFinish], st.params)
    else
      some (st.events ++ saveEvents, st.params)

/-!
Error-propagation model for `train_model` (claim C4).  The function body
contains no `try`/`except` and no retry loop: it is a straight-line sequence
of framework calls determined by the arguments.  `trainCallPlan` lists those
calls in program order; `execCalls` executes a plan against an oracle that
says which call (by position) raises, and stops at the first raised
exception, returning it unchanged.
-/

/-- The framework/library calls performed by `train_model`, by call site. -/
inductive Call where
  | wandbInitC
  | setupLoggingC
  | getModelC
  | toDeviceC
  | mkPokeDataC
  | getTrainLoaderC
  | getValLoaderC
  | mkCriterionC
  | mkOptimizerC
  | mkSchedulerC
  | zeroGradC
  | forwardC
  | lossC
  | backwardC
  | optStepC
  | profStepC
  | valForwardC
  | valLossC
  | wandbLogC
  | schedStepC
  | mkdirC
  | torchSaveC
  | artifactNewC
  | artifactAddC
  | logArtifactC
  | nextValBatchC
  | onnxExportC
  | wandbFinishC
  deriving Repr, DecidableEq

/-- Calls of one training-loop iteration (lines 132-152 resp. 155-171). -/
def trainBatchCalls (profiling : Bool) : List Call :=
  [.zeroGradC, .forwardC, .lossC, .backwardC, .optStepC]
    ++ (if profiling then [.profStepC] else [])

/-- Calls of one epoch (lines 116-204). -/
def epochCalls (profiling use_wandb : Bool) (nTrain nVal : Nat) : List Call :=
  (List.replicate nTrain (trainBatchCalls profiling)).flatten
    ++ (List.replicate nVal [Call.valForwardC, Call.valLossC]).flatten
    ++ (if use_wandb then [Call.wandbLogC] else [])
    ++ [Call.schedStepC]

/-- The full straight-line call sequence of `train_model` (lines 66-256) for a
run with `num_epochs` epochs, `nTrain` training batches and `nVal` validation
batches per epoch. -/
def trainCallPlan (use_wandb profiling export_model _sweep : Bool)
    (num_epochs nTrain nVal : Nat) : List Call :=
  (if use_wandb then [Call.wandbInitC] else [])
    ++ [Call.setupLoggingC, Call.getModelC, Call.toDeviceC, Call.mkPokeDataC,
        Call.getTrainLoaderC, Call.getValLoaderC, Call.mkCriterionC,
        Call.mkOptimizerC, Call.mkSchedulerC]
    ++ (List.replicate num_epochs (epochCalls profiling use_wandb nTrain nVal)).flatten
    ++ (if use_wandb then
          [Call.mkdirC, Call.torchSaveC, Call.artifactNewC, Call.artifactAddC,
           Call.logArtifactC]
        else [])
    ++ (if export_model && use_wandb then
          [Call.nextValBatchC, Call.mkdirC, Call.onnxExportC, Call.artifactNewC,
           Call.artifactAddC, Call.logArtifactC, Call.wandbFinishC]
        else [])

/-- Execute a call plan starting at call index `i` against an oracle giving,
for each call position, the exception it raises (or `none` if it returns
normally).  Returns the calls actually attempted and the outcome.  There is no
handler in `train_model`, so the first exception ends execution and is
returned as-is. -/
def execCalls {ε : Type} (oracle : Nat → Option ε) :
    List Call → Nat → List Call × Except ε Unit
  | [], _ => ([], Except.ok ())
  | c :: rest, i =>
    match oracle i with
    | some e => ([c], Except.error e)
    | none =>
      let (tr, r) := execCalls oracle rest (i + 1)
      (c :: tr, r)

end Pokedec

/-! Concrete instances used to evaluate the development on sample inputs. -/

/-- A small executable framework instance over rational parameter and output
states, used to run the embedding on concrete inputs. -/
def demoFW : Pokedec.Framework ℚ ℚ where
  forward := fun _mode p b => p + (b.data : ℚ)
  lossOf := fun o b => o * o + (b.data : ℚ) + 1
  nCorrect := fun _o b => b.size
  zeroGrad := fun p => p
  backward := fun p l => p + l
  optStep := fun lr wd p => p - lr * (p + wd)

/-- Loop state at the start of a run with the script's default configuration
(`num_classes=1000`, `batch_size=32`, `num_epochs=100`, `lr=wd=1e-4`). -/
def stC2 : Pokedec.LoopState ℚ :=
  { num_classes := 1000, batch_size := 32, num_epochs := 100, wd := 1/10000
    lr0 := 1/10000, schedCount := 0, lr := Pokedec.schedLR (1/10000) 0
    params := 0, events := [] }

/-- Loop state of the same run just before the fifth scheduler step. -/
def stC2b : Pokedec.LoopState ℚ :=
  { stC2 with schedCount := 4, lr := Pokedec.schedLR (1/10000) 4 }

/-- The loop state after running one more epoch from `stC2b`. -/
def stC2b' : Pokedec.LoopState ℚ :=
  (Pokedec.epochStep demoFW false false [⟨1, 0⟩] [⟨1, 1⟩] 1 1 4 stC2b).getD stC2b

/-- The loop state after two epochs of a small tracked run. -/
def stC7 : Pokedec.LoopState ℚ :=
  (Pokedec.runEpochs demoFW false true [⟨1, 0⟩] [⟨1, 1⟩] 1 1 2 0 stC2).getD stC2

/-- A default epoch output, used only as the fallback of `Option.getD`. -/
def dEpochOut : Pokedec.EpochOut ℚ :=
  { params := 0, metrics := ⟨0, 0, 0, 0⟩, events := [] }

/-- The output of one concrete tracked epoch. -/
def eoC8 : Pokedec.EpochOut ℚ :=
  (Pokedec.runEpoch demoFW false true 1 [⟨1, 0⟩] [⟨1, 1⟩] 1 1 0 1 0).getD dEpochOut

/-- The output of one concrete epoch over non-empty datasets. -/
def eoC10 : Pokedec.EpochOut ℚ :=
  (Pokedec.runEpoch demoFW false false 1 [⟨2, 0⟩] [⟨2, 1⟩] 2 2 0 1 0).getD dEpochOut

/-- The result of a concrete tracked sweep run (one epoch). -/
def outC1 : List Pokedec.Event × ℚ :=
  (Pokedec.train_model demoFW "w1" 3 1 1 1 1 true false false true
    [⟨1, 0⟩] [⟨1, 1⟩] 0).getD ([], 0)

/-- The result of a concrete tracked non-sweep run with ONNX export enabled. -/
def outC3 : List Pokedec.Event × ℚ :=
  (Pokedec.train_model demoFW "w3" 3 1 1 1 1 true false true false
    [⟨1, 0⟩] [⟨1, 1⟩] 0).getD ([], 0)

/-- The result of a concrete tracked two-epoch run. -/
def outC6 : List Pokedec.Event × ℚ :=
  (Pokedec.train_model demoFW "w6" 3 1 2 1 1 true false false true
    [⟨1, 0⟩] [⟨1, 1⟩] 0).getD ([], 0)

/-- The result of a concrete untracked two-epoch run. -/
def outC8 : List Pokedec.Event × ℚ :=
  (Pokedec.train_model demoFW "w8" 3 1 2 1 1 false false false true
    [⟨1, 0⟩] [⟨1, 1⟩] 0).getD ([], 0)

/-!
Helper lemmas.
-/

namespace Pokedec

variable {M O : Type}

theorem isLoopEv_not_save_onnx (ev : Event) (h : ev.isLoopEv = true) :
    ev.isSave = false ∧ ev.isOnnx = false := by
  cases ev <;> simp_all [Event.isLoopEv, Event.isSave, Event.isOnnx]

theorem isTrainOp_or_instr_loopEv (ev : Event)
    (h : ev.isTrainOp = true ∨ ev.isInstr = true) : ev.isLoopEv = true := by
  cases ev <;> simp_all [Event.isLoopEv, Event.isTrainOp, Event.isInstr]

theorem isValOp_loopEv (ev : Event) (h : ev.isValOp = true) :
    ev.isLoopEv = true := by
  cases ev <;> simp_all [Event.isValOp, Event.isLoopEv]

theorem loopEv_logOf_none (ev : Event)
    (h : ev.isTrainOp = true ∨ ev.isInstr = true ∨ ev.isValOp = true) :
    ev.logOf = none := by
  cases ev <;> simp_all [Event.logOf, Event.isTrainOp, Event.isInstr, Event.isValOp]

theorem loopEv_not_schedStep (ev : Event)
    (h : ev.isTrainOp = true ∨ ev.isInstr = true ∨ ev.isValOp = true ∨ ev.isLog = true) :
    ev.isSchedStep = false := by
  cases ev <;>
    simp_all [Event.isSchedStep, Event.isTrainOp, Event.isInstr, Event.isValOp, Event.isLog]

theorem trainBatchPlain_events_mem (fw : Framework M O) (lr wd : ℚ) (p : M)
    (s : Stats) (b : Batch) :
    ∀ ev ∈ (trainBatchPlain fw lr wd p s b).events,
      ev.isTrainOp = true ∨ ev.isInstr = true := by
  intro ev h
  simp [trainBatchPlain] at h
  rcases h with rfl | rfl | rfl | rfl | rfl <;> decide

theorem trainBatchProf_events_mem (fw : Framework M O) (lr wd : ℚ) (p : M)
    (s : Stats) (b : Batch) :
    ∀ ev ∈ (trainBatchProf fw lr wd p s b).events,
      ev.isTrainOp = true ∨ ev.isInstr = true := by
  intro ev h
  simp [trainBatchProf] at h
  rcases h with rfl | rfl | rfl | rfl | rfl | rfl | rfl | rfl | rfl | rfl <;> decide

theorem trainBatches_events_mem (fw : Framework M O) (profiling : Bool) (lr wd : ℚ) :
    ∀ (batches : List Batch) (p : M) (s : Stats),
      ∀ ev ∈ (trainBatches fw profiling lr wd batches p s).events,
        ev.isTrainOp = true ∨ ev.isInstr = true := by
  intro batches
  induction batches with
  | nil =>
    intro p s ev h
    simp [trainBatches] at h
  | cons b rest ih =>
    intro p s ev h
    simp only [trainBatches, List.mem_append] at h
    rcases h with h | h
    · cases profiling
      · exact trainBatchPlain_events_mem fw lr wd p s b ev h
      · exact trainBatchProf_events_mem fw lr wd p s b ev h
    · exact ih _ _ ev h

theorem trainPhase_events_mem (fw : Framework M O) (profiling : Bool) (lr wd : ℚ)
    (batches : List Batch) (p : M) (s : Stats) :
    ∀ ev ∈ (trainPhase fw profiling lr wd batches p s).events,
      ev.isTrainOp = true ∨ ev.isInstr = true := by
  intro ev h
  simp only [trainPhase, List.mem_append] at h
  rcases h with h | h
  · have : ev = Event.evProfileStart := by
      cases profiling <;> simp_all
    subst this
    right; rfl
  · exact trainBatches_events_mem fw profiling lr wd batches p s ev h

theorem valPhase_params (fw : Framework M O) :
    ∀ (batches : List Batch) (p : M) (s : Stats),
      (valPhase fw batches p s).params = p := by
  intro batches
  induction batches with
  | nil => intro p s; rfl
  | cons b rest ih =>
    intro p s
    simp only [valPhase, valBatch]
    exact ih _ _

theorem valPhase_events_mem (fw : Framework M O) :
    ∀ (batches : List Batch) (p : M) (s : Stats),
      ∀ ev ∈ (valPhase fw batches p s).events, ev.isValOp = true := by
  intro batches
  induction batches with
  | nil =>
    intro p s ev h
    simp [valPhase] at h
  | cons b rest ih =>
    intro p s ev h
    simp [valPhase, valBatch] at h
    rcases h with rfl | rfl | h
    · rfl
    · rfl
    · exact ih _ _ ev h

end Pokedec

namespace Pokedec

variable {M O : Type}

theorem trainBatches_total (fw : Framework M O) (profiling : Bool) (lr wd : ℚ) :
    ∀ (batches : List Batch) (p : M) (s : Stats),
      (trainBatches fw profiling lr wd batches p s).stats.total
        = s.total + (batches.map Batch.size).sum := by
  intro batches
  induction batches with
  | nil => intro p s; simp [trainBatches]
  | cons b rest ih =>
    intro p s
    have h1 : (if profiling then trainBatchProf fw lr wd p s b
        else trainBatchPlain fw lr wd p s b).stats.total = s.total + b.size := by
      cases profiling <;> rfl
    simp only [trainBatches]
    rw [ih, h1]
    simp [Nat.add_assoc]

theorem trainBatches_correct_le (fw : Framework M O) (profiling : Bool) (lr wd : ℚ)
    (hc : ∀ o b, fw.nCorrect o b ≤ b.size) :
    ∀ (batches : List Batch) (p : M) (s : Stats), s.correct ≤ s.total →
      (trainBatches fw profiling lr wd batches p s).stats.correct
        ≤ (trainBatches fw profiling lr wd batches p s).stats.total := by
  intro batches
  induction batches with
  | nil => intro p s h; simpa [trainBatches] using h
  | cons b rest ih =>
    intro p s h
    simp only [trainBatches]
    apply ih
    cases profiling <;> exact Nat.add_le_add h (hc _ _)

theorem trainPhase_total (fw : Framework M O) (profiling : Bool) (lr wd : ℚ)
    (batches : List Batch) (p : M) (s : Stats) :
    (trainPhase fw profiling lr wd batches p s).stats.total
      = s.total + (batches.map Batch.size).sum :=
  trainBatches_total fw profiling lr wd batches p s

theorem trainPhase_correct_le (fw : Framework M O) (profiling : Bool) (lr wd : ℚ)
    (hc : ∀ o b, fw.nCorrect o b ≤ b.size)
    (batches : List Batch) (p : M) (s : Stats) (h : s.correct ≤ s.total) :
    (trainPhase fw profiling lr wd batches p s).stats.correct
      ≤ (trainPhase fw profiling lr wd batches p s).stats.total :=
  trainBatches_correct_le fw profiling lr wd hc batches p s h

theorem valPhase_total (fw : Framework M O) :
    ∀ (batches : List Batch) (p : M) (s : Stats),
      (valPhase fw batches p s).stats.total
        = s.total + (batches.map Batch.size).sum := by
  intro batches
  induction batches with
  | nil => intro p s; simp [valPhase]
  | cons b rest ih =>
    intro p s
    simp only [valPhase, valBatch]
    rw [ih]
    simp [Nat.add_assoc]

theorem valPhase_correct_le (fw : Framework M O)
    (hc : ∀ o b, fw.nCorrect o b ≤ b.size) :
    ∀ (batches : List Batch) (p : M) (s : Stats), s.correct ≤ s.total →
      (valPhase fw batches p s).stats.correct
        ≤ (valPhase fw batches p s).stats.total := by
  intro batches
  induction batches with
  | nil => intro p s h; simpa [valPhase] using h
  | cons b rest ih =>
    intro p s h
    simp only [valPhase, valBatch]
    exact ih _ _ (Nat.add_le_add h (hc _ _))

theorem trainBatches_profiling_equiv (fw : Framework M O) (lr wd : ℚ) :
    ∀ (batches : List Batch) (p : M) (s : Stats),
      (trainBatches fw true lr wd batches p s).params
          = (trainBatches fw false lr wd batches p s).params
        ∧ (trainBatches fw true lr wd batches p s).stats
          = (trainBatches fw false lr wd batches p s).stats
        ∧ (trainBatches fw true lr wd batches p s).events.filter (fun ev => !ev.isInstr)
          = (trainBatches fw false lr wd batches p s).events := by
  intro batches
  induction batches with
  | nil => intro p s; exact ⟨rfl, rfl, rfl⟩
  | cons b rest ih =>
    intro p s
    have he : (trainBatchProf fw lr wd p s b).events.filter (fun ev => !ev.isInstr)
        = (trainBatchPlain fw lr wd p s b).events := rfl
    obtain ⟨ih1, ih2, ih3⟩ :=
      ih (trainBatchPlain fw lr wd p s b).params (trainBatchPlain fw lr wd p s b).stats
    refine ⟨?_, ?_, ?_⟩
    · simp only [trainBatches]
      exact ih1
    · simp only [trainBatches]
      exact ih2
    · simp only [trainBatches, List.filter_append]
      congr 1

theorem trainBatches_plain_no_instr (fw : Framework M O) (lr wd : ℚ) :
    ∀ (batches : List Batch) (p : M) (s : Stats),
      (trainBatches fw false lr wd batches p s).events.filter (fun ev => !ev.isInstr)
        = (trainBatches fw false lr wd batches p s).events := by
  intro batches
  induction batches with
  | nil => intro p s; rfl
  | cons b rest ih =>
    intro p s
    simp only [trainBatches, List.filter_append]
    rw [ih]
    rfl

end Pokedec

namespace Pokedec

variable {M O : Type}

theorem runEpoch_inv (fw : Framework M O) (profiling use_wandb : Bool) (wd : ℚ)
    (trainB valB : List Batch) (trainLen valLen : Nat) (epoch : Nat) (lr : ℚ)
    (p : M) (eo : EpochOut M)
    (h : runEpoch fw profiling use_wandb wd trainB valB trainLen valLen epoch lr p
        = some eo) :
    eo.params
        = (valPhase fw valB (trainPhase fw profiling lr wd trainB p ⟨0, 0, 0⟩).params
            ⟨0, 0, 0⟩).params
      ∧ eo.events
        = (trainPhase fw profiling lr wd trainB p ⟨0, 0, 0⟩).events
          ++ (valPhase fw valB (trainPhase fw profiling lr wd trainB p ⟨0, 0, 0⟩).params
                ⟨0, 0, 0⟩).events
          ++ (if use_wandb then [Event.evWandbLog epoch eo.metrics] else [])
          ++ [Event.evSchedStep]
      ∧ natDivOrFault (trainPhase fw profiling lr wd trainB p ⟨0, 0, 0⟩).stats.correct
          (trainPhase fw profiling lr wd trainB p ⟨0, 0, 0⟩).stats.total
          = some eo.metrics.train_accuracy
      ∧ natDivOrFault
          (valPhase fw valB (trainPhase fw profiling lr wd trainB p ⟨0, 0, 0⟩).params
            ⟨0, 0, 0⟩).stats.correct
          (valPhase fw valB (trainPhase fw profiling lr wd trainB p ⟨0, 0, 0⟩).params
            ⟨0, 0, 0⟩).stats.total
          = some eo.metrics.val_accuracy := by
  simp only [runEpoch] at h
  cases hq1 : divOrFault (trainPhase fw profiling lr wd trainB p ⟨0, 0, 0⟩).stats.running_loss
      trainLen with
  | none => rw [hq1] at h; simp at h
  | some epoch_loss =>
    rw [hq1] at h
    cases hq2 : natDivOrFault (trainPhase fw profiling lr wd trainB p ⟨0, 0, 0⟩).stats.correct
        (trainPhase fw profiling lr wd trainB p ⟨0, 0, 0⟩).stats.total with
    | none => rw [hq2] at h; simp at h
    | some epoch_acc =>
      rw [hq2] at h
      cases hq3 : divOrFault
          (valPhase fw valB (trainPhase fw profiling lr wd trainB p ⟨0, 0, 0⟩).params
            ⟨0, 0, 0⟩).stats.running_loss valLen with
      | none => rw [hq3] at h; simp at h
      | some val_loss =>
        rw [hq3] at h
        cases hq4 : natDivOrFault
            (valPhase fw valB (trainPhase fw profiling lr wd trainB p ⟨0, 0, 0⟩).params
              ⟨0, 0, 0⟩).stats.correct
            (valPhase fw valB (trainPhase fw profiling lr wd trainB p ⟨0, 0, 0⟩).params
              ⟨0, 0, 0⟩).stats.total with
        | none => rw [hq4] at h; simp at h
        | some val_acc =>
          rw [hq4] at h
          rw [Option.some_inj] at h
          subst h
          exact ⟨rfl, rfl, rfl, rfl⟩

theorem runEpoch_events_loopEv (fw : Framework M O) (profiling use_wandb : Bool)
    (wd : ℚ) (trainB valB : List Batch) (trainLen valLen : Nat) (epoch : Nat)
    (lr : ℚ) (p : M) (eo : EpochOut M)
    (h : runEpoch fw profiling use_wandb wd trainB valB trainLen valLen epoch lr p
        = some eo) :
    ∀ ev ∈ eo.events, Event.isLoopEv ev = true := by
  obtain ⟨-, hev, -, -⟩ :=
    runEpoch_inv fw profiling use_wandb wd trainB valB trainLen valLen epoch lr p eo h
  intro ev hmem
  rw [hev] at hmem
  simp only [List.mem_append] at hmem
  rcases hmem with ((hm | hm) | hm) | hm
  · exact isTrainOp_or_instr_loopEv ev
      (trainPhase_events_mem fw profiling lr wd trainB p ⟨0, 0, 0⟩ ev hm)
  · exact isValOp_loopEv ev (valPhase_events_mem fw valB _ ⟨0, 0, 0⟩ ev hm)
  · cases use_wandb
    · simp at hm
    · simp at hm
      subst hm
      rfl
  · simp at hm
    subst hm
    rfl

end Pokedec

namespace Pokedec

variable {M O : Type}

theorem logEpochs_append (a b : List Event) :
    logEpochs (a ++ b) = logEpochs a ++ logEpochs b :=
  List.filterMap_append a b Event.logOf

theorem logEpochs_eq_nil (evs : List Event)
    (h : ∀ ev ∈ evs, ev.logOf = none) : logEpochs evs = [] := by
  induction evs with
  | nil => rfl
  | cons ev rest ih =>
    have h1 := h ev (by simp)
    have h2 : ∀ e ∈ rest, Event.logOf e = none := fun e he => h e (by simp [he])
    simp [logEpochs, List.filterMap_cons, h1]
    simpa [logEpochs] using ih h2

theorem filter_eq_nil_of_false {p : Event → Bool} (evs : List Event)
    (h : ∀ ev ∈ evs, p ev = false) : evs.filter p = [] := by
  rw [List.filter_eq_nil_iff]
  intro ev hm
  simp [h ev hm]

theorem runEpoch_logEpochs (fw : Framework M O) (profiling use_wandb : Bool)
    (wd : ℚ) (trainB valB : List Batch) (trainLen valLen : Nat) (epoch : Nat)
    (lr : ℚ) (p : M) (eo : EpochOut M)
    (h : runEpoch fw profiling use_wandb wd trainB valB trainLen valLen epoch lr p
        = some eo) :
    logEpochs eo.events = if use_wandb then [epoch] else [] := by
  obtain ⟨-, hev, -, -⟩ :=
    runEpoch_inv fw profiling use_wandb wd trainB valB trainLen valLen epoch lr p eo h
  rw [hev]
  rw [logEpochs_append, logEpochs_append, logEpochs_append]
  rw [logEpochs_eq_nil _ (fun ev hm =>
    loopEv_logOf_none ev (by
      rcases trainPhase_events_mem fw profiling lr wd trainB p ⟨0, 0, 0⟩ ev hm with h' | h'
      · exact Or.inl h'
      · exact Or.inr (Or.inl h')))]
  rw [logEpochs_eq_nil _ (fun ev hm =>
    loopEv_logOf_none ev (Or.inr (Or.inr (valPhase_events_mem fw valB _ ⟨0, 0, 0⟩ ev hm))))]
  cases use_wandb <;> simp [logEpochs, Event.logOf]

theorem runEpoch_schedSteps (fw : Framework M O) (profiling use_wandb : Bool)
    (wd : ℚ) (trainB valB : List Batch) (trainLen valLen : Nat) (epoch : Nat)
    (lr : ℚ) (p : M) (eo : EpochOut M)
    (h : runEpoch fw profiling use_wandb wd trainB valB trainLen valLen epoch lr p
        = some eo) :
    eo.events.filter Event.isSchedStep = [Event.evSchedStep] := by
  obtain ⟨-, hev, -, -⟩ :=
    runEpoch_inv fw profiling use_wandb wd trainB valB trainLen valLen epoch lr p eo h
  rw [hev]
  rw [List.filter_append, List.filter_append, List.filter_append]
  rw [filter_eq_nil_of_false _ (fun ev hm =>
    loopEv_not_schedStep ev (by
      rcases trainPhase_events_mem fw profiling lr wd trainB p ⟨0, 0, 0⟩ ev hm with h' | h'
      · exact Or.inl h'
      · exact Or.inr (Or.inl h')))]
  rw [filter_eq_nil_of_false _ (fun ev hm =>
    loopEv_not_schedStep ev
      (Or.inr (Or.inr (Or.inl (valPhase_events_mem fw valB _ ⟨0, 0, 0⟩ ev hm)))))]
  cases use_wandb <;> simp [Event.isSchedStep]

theorem epochStep_inv (fw : Framework M O) (profiling use_wandb : Bool)
    (trainB valB : List Batch) (trainLen valLen : Nat) (epoch : Nat)
    (st st' : LoopState M)
    (h : epochStep fw profiling use_wandb trainB valB trainLen valLen epoch st
        = some st') :
    ∃ eo : EpochOut M,
      runEpoch fw profiling use_wandb st.wd trainB valB trainLen valLen epoch st.lr
          st.params = some eo
        ∧ st' = { st with
            params := eo.params
            events := st.events ++ eo.events
            schedCount := st.schedCount + 1
            lr := schedLR st.lr0 (st.schedCount + 1) } := by
  simp only [epochStep] at h
  obtain ⟨eo, heo, hst⟩ := Option.map_eq_some'.mp h
  exact ⟨eo, heo, hst.symm⟩

end Pokedec

namespace Pokedec

variable {M O : Type}

theorem runEpochs_events_shape (fw : Framework M O) (profiling use_wandb : Bool)
    (trainB valB : List Batch) (trainLen valLen : Nat) :
    ∀ (n e : Nat) (st st' : LoopState M),
      runEpochs fw profiling use_wandb trainB valB trainLen valLen n e st = some st' →
      ∃ suf, st'.events = st.events ++ suf ∧ ∀ ev ∈ suf, Event.isLoopEv ev = true := by
  intro n
  induction n with
  | zero =>
    intro e st st' h
    simp only [runEpochs] at h
    rw [Option.some_inj] at h
    subst h
    exact ⟨[], by simp, by simp⟩
  | succ n ih =>
    intro e st st' h
    simp only [runEpochs] at h
    cases hstep : epochStep fw profiling use_wandb trainB valB trainLen valLen e st with
    | none => rw [hstep] at h; simp at h
    | some st1 =>
      rw [hstep] at h
      obtain ⟨suf2, h2, hmem2⟩ := ih (e + 1) st1 st' h
      obtain ⟨eo, heo, hst1⟩ :=
        epochStep_inv fw profiling use_wandb trainB valB trainLen valLen e st st1 hstep
      refine ⟨eo.events ++ suf2, ?_, ?_⟩
      · rw [h2, hst1]
        simp [List.append_assoc]
      · intro ev hm
        rcases List.mem_append.mp hm with hm | hm
        · exact runEpoch_events_loopEv fw profiling use_wandb st.wd trainB valB trainLen
            valLen e st.lr st.params eo heo ev hm
        · exact hmem2 ev hm

theorem runEpochs_config (fw : Framework M O) (profiling use_wandb : Bool)
    (trainB valB : List Batch) (trainLen valLen : Nat) :
    ∀ (n e : Nat) (st st' : LoopState M),
      runEpochs fw profiling use_wandb trainB valB trainLen valLen n e st = some st' →
      st'.num_classes = st.num_classes ∧ st'.batch_size = st.batch_size
        ∧ st'.num_epochs = st.num_epochs ∧ st'.wd = st.wd ∧ st'.lr0 = st.lr0 := by
  intro n
  induction n with
  | zero =>
    intro e st st' h
    simp only [runEpochs] at h
    rw [Option.some_inj] at h
    subst h
    exact ⟨rfl, rfl, rfl, rfl, rfl⟩
  | succ n ih =>
    intro e st st' h
    simp only [runEpochs] at h
    cases hstep : epochStep fw profiling use_wandb trainB valB trainLen valLen e st with
    | none => rw [hstep] at h; simp at h
    | some st1 =>
      rw [hstep] at h
      obtain ⟨h1, h2, h3, h4, h5⟩ := ih (e + 1) st1 st' h
      obtain ⟨eo, -, hst1⟩ :=
        epochStep_inv fw profiling use_wandb trainB valB trainLen valLen e st st1 hstep
      subst hst1
      exact ⟨h1, h2, h3, h4, h5⟩

theorem runEpochs_logEpochs (fw : Framework M O) (profiling : Bool)
    (trainB valB : List Batch) (trainLen valLen : Nat) :
    ∀ (n e : Nat) (st st' : LoopState M),
      runEpochs fw profiling true trainB valB trainLen valLen n e st = some st' →
      logEpochs st'.events = logEpochs st.events ++ List.range' e n := by
  intro n
  induction n with
  | zero =>
    intro e st st' h
    simp only [runEpochs] at h
    rw [Option.some_inj] at h
    subst h
    simp [List.range']
  | succ n ih =>
    intro e st st' h
    simp only [runEpochs] at h
    cases hstep : epochStep fw profiling true trainB valB trainLen valLen e st with
    | none => rw [hstep] at h; simp at h
    | some st1 =>
      rw [hstep] at h
      have hrec := ih (e + 1) st1 st' h
      obtain ⟨eo, heo, hst1⟩ :=
        epochStep_inv fw profiling true trainB valB trainLen valLen e st st1 hstep
      have hlog := runEpoch_logEpochs fw profiling true st.wd trainB valB trainLen valLen
        e st.lr st.params eo heo
      rw [hrec, hst1]
      simp only [logEpochs_append, hlog]
      rw [List.range'_succ]
      simp
  
theorem runEpochs_schedSteps (fw : Framework M O) (profiling use_wandb : Bool)
    (trainB valB : List Batch) (trainLen valLen : Nat) :
    ∀ (n e : Nat) (st st' : LoopState M),
      runEpochs fw profiling use_wandb trainB valB trainLen valLen n e st = some st' →
      (st'.events.filter Event.isSchedStep).length
        = (st.events.filter Event.isSchedStep).length + n := by
  intro n
  induction n with
  | zero =>
    intro e st st' h
    simp only [runEpochs] at h
    rw [Option.some_inj] at h
    subst h
    rfl
  | succ n ih =>
    intro e st st' h
    simp only [runEpochs] at h
    cases hstep : epochStep fw profiling use_wandb trainB valB trainLen valLen e st with
    | none => rw [hstep] at h; simp at h
    | some st1 =>
      rw [hstep] at h
      have hrec := ih (e + 1) st1 st' h
      obtain ⟨eo, heo, hst1⟩ :=
        epochStep_inv fw profiling use_wandb trainB valB trainLen valLen e st st1 hstep
      have hsched := runEpoch_schedSteps fw profiling use_wandb st.wd trainB valB trainLen
        valLen e st.lr st.params eo heo
      rw [hrec, hst1]
      simp only [List.filter_append, List.length_append, hsched]
      simp
      omega

end Pokedec

namespace Pokedec

variable {M O : Type}

theorem train_model_inv (fw : Framework M O) (runId : String) (nc bs ne : Nat)
    (lr wd : ℚ) (uw prof ex sw : Bool) (tB vB : List Batch) (m0 : M)
    (out : List Event × M)
    (h : train_model fw runId nc bs ne lr wd uw prof ex sw tB vB m0 = some out) :
    ∃ st : LoopState M,
      runEpochs fw prof uw tB vB ((tB.map Batch.size).sum) ((vB.map Batch.size).sum)
          ne 0 (initState runId nc bs ne lr wd uw sw m0) = some st
      ∧ out.1 = st.events
          ++ (if uw then
                [Event.evMkdir (saveDir sw), Event.evSave (savePath sw runId),
                 Event.evAddArtifactFile (savePath sw runId),
                 Event.evLogArtifact "pokedec_models"]
              else [])
          ++ (if ex && uw then
                [Event.evMkdir "models/onnx", Event.evOnnxExport (onnxPath runId) 1,
                 Event.evAddArtifactFile (onnxPath runId),
                 Event.evLogArtifact "pokedec_models_onnx", Event.evWandbFinish]
              else []) := by
  simp only [train_model] at h
  split at h
  · exact absurd h (by simp)
  · rename_i st hre
    refine ⟨st, hre, ?_⟩
    split at h
    · -- export branch: ex && uw = true
      rename_i hex
      rw [hex]
      simp only [if_true]
      split at h
      · exact absurd h (by simp)
      · split at h
        · exact absurd h (by simp)
        · rw [Option.some_inj] at h
          subst h
          rfl
    · -- no-export branch: ¬(ex && uw = true)
      rename_i hex
      rw [Bool.not_eq_true] at hex
      rw [hex]
      simp only [Bool.false_eq_true, if_false, List.append_nil]
      rw [Option.some_inj] at h
      subst h
      rfl

end Pokedec

/-!
Claim theorems.
-/

open Pokedec

/-- C5: the validation phase of every epoch computes held-out loss and accuracy
without gradient tracking and performs no update step: the model parameters are
identical before and after the validation pass, and every event of the
validation pass is a forward pass or a loss computation — in particular the
pass contains no backward pass and no optimizer step. -/
theorem C5_validation_no_update {M O : Type} (fw : Framework M O)
    (batches : List Batch) (p : M) (s : Stats) :
    (valPhase fw batches p s).params = p
      ∧ ∀ ev ∈ (valPhase fw batches p s).events,
          ev.isValOp = true ∧ ev.isTrainOp = false := by
  refine ⟨valPhase_params fw batches p s, ?_⟩
  intro ev h
  have hv := valPhase_events_mem fw batches p s ev h
  refine ⟨hv, ?_⟩
  cases ev <;> simp_all [Event.isValOp, Event.isTrainOp]

/-- Witness for C5: a concrete validation pass leaves the parameters at their
input value, and its forward-pass event is a validation op, not a training op. -/
theorem C5_witness :
    (valPhase demoFW [⟨1, 0⟩] (5 : ℚ) ⟨0, 0, 0⟩).params = 5
      ∧ (Event.isValOp .evValForward = true ∧ Event.isTrainOp .evValForward = false) :=
  ⟨(C5_validation_no_update demoFW [⟨1, 0⟩] 5 ⟨0, 0, 0⟩).1,
   (C5_validation_no_update demoFW [⟨1, 0⟩] 5 ⟨0, 0, 0⟩).2 Event.evValForward (by decide)⟩

/-- C7: the run configuration is immutable once the loop starts: after any
number of epoch iterations, `num_classes`, `batch_size`, `num_epochs` and `wd`
are unchanged (only the scheduler-managed learning rate and the loop-owned
model/trace state change). -/
theorem C7_config_immutable {M O : Type} (fw : Framework M O)
    (profiling use_wandb : Bool) (trainB valB : List Batch)
    (trainLen valLen : Nat) (n e : Nat) (st st' : LoopState M)
    (h : runEpochs fw profiling use_wandb trainB valB trainLen valLen n e st
        = some st') :
    st'.num_classes = st.num_classes ∧ st'.batch_size = st.batch_size
      ∧ st'.num_epochs = st.num_epochs ∧ st'.wd = st.wd := by
  obtain ⟨h1, h2, h3, h4, -⟩ :=
    runEpochs_config fw profiling use_wandb trainB valB trainLen valLen n e st st' h
  exact ⟨h1, h2, h3, h4⟩

/-- Witness for C7: after two concrete epochs the four configuration fields
are unchanged. -/
theorem C7_witness :
    stC7.num_classes = stC2.num_classes ∧ stC7.batch_size = stC2.batch_size
      ∧ stC7.num_epochs = stC2.num_epochs ∧ stC7.wd = stC2.wd :=
  C7_config_immutable demoFW false true [⟨1, 0⟩] [⟨1, 1⟩] 1 1 2 0 stC2 stC7 rfl

/-- C9: the profiling and non-profiling branches of the training phase are
behaviourally equivalent: same final model parameters, same accumulated
`running_loss`/`correct`/`total` statistics, and the profiling branch's event
sequence with instrumentation removed equals the non-profiling branch's event
sequence, which itself contains no instrumentation. -/
theorem C9_profiling_equivalent {M O : Type} (fw : Framework M O) (lr wd : ℚ)
    (batches : List Batch) (p : M) (s : Stats) :
    (trainPhase fw true lr wd batches p s).params
        = (trainPhase fw false lr wd batches p s).params
      ∧ (trainPhase fw true lr wd batches p s).stats
        = (trainPhase fw false lr wd batches p s).stats
      ∧ (trainPhase fw true lr wd batches p s).events.filter (fun ev => !ev.isInstr)
        = (trainPhase fw false lr wd batches p s).events
      ∧ (trainPhase fw false lr wd batches p s).events.filter (fun ev => !ev.isInstr)
        = (trainPhase fw false lr wd batches p s).events := by
  obtain ⟨h1, h2, h3⟩ := trainBatches_profiling_equiv fw lr wd batches p s
  refine ⟨h1, h2, ?_, ?_⟩
  · simp only [trainPhase, List.filter_append]
    rw [h3]
    rfl
  · simp only [trainPhase, List.filter_append]
    rw [trainBatches_plain_no_instr fw lr wd batches p s]
    rfl

/-- C1 counterexample: with tracking disabled (`use_wandb = false`) but all
other mode flags at liberty (here `export_model = true`, `sweep = true`), the
run completes and its trace contains no checkpoint write at all — the weights
are not persisted, contradicting "regardless of which mode flags were
supplied". -/
theorem C1_counterexample :
    (train_model demoFW "r1" 3 1 1 1 1 false false true true
        [⟨1, 0⟩] [⟨1, 1⟩] (0 : ℚ)).map (fun out => out.1.filter Event.isSave)
      = some [] := by decide

/-- C1 (amended): after the training loop finishes, the model weights are
persisted to a checkpoint exactly when tracking is enabled: with
`use_wandb = true` the trace contains exactly one `torch.save` write, to
`models/sweep/pokedec_model_<runId>.pth` or
`models/single/pokedec_model_<runId>.pth` according to the sweep flag; with
`use_wandb = false` it contains none. -/
theorem C1_checkpoint_persistence {M O : Type} (fw : Framework M O)
    (runId : String) (nc bs ne : Nat) (lr wd : ℚ) (uw prof ex sw : Bool)
    (tB vB : List Batch) (m0 : M) (out : List Event × M)
    (h : train_model fw runId nc bs ne lr wd uw prof ex sw tB vB m0 = some out) :
    out.1.filter Event.isSave
      = if uw then [Event.evSave (savePath sw runId)] else [] := by
  obtain ⟨st, hre, hout⟩ :=
    train_model_inv fw runId nc bs ne lr wd uw prof ex sw tB vB m0 out h
  obtain ⟨suf, hev, hmem⟩ :=
    runEpochs_events_shape fw prof uw tB vB _ _ ne 0 _ st hre
  rw [hout, hev]
  rw [List.filter_append, List.filter_append, List.filter_append]
  rw [filter_eq_nil_of_false _ (fun ev hm => (isLoopEv_not_save_onnx ev (hmem ev hm)).1)]
  have hinit : ((initState runId nc bs ne lr wd uw sw m0 : LoopState M)).events.filter
      Event.isSave = [] := by
    cases uw <;> rfl
  rw [hinit]
  cases uw <;> cases ex <;> simp [Event.isSave, savePath, saveDir]

/-- Witness for C1 (amended): a concrete tracked sweep run writes exactly the
checkpoint `models/sweep/pokedec_model_w1.pth`. -/
theorem C1_witness :
    outC1.1.filter Event.isSave = [Event.evSave (savePath true "w1")] :=
  C1_checkpoint_persistence demoFW "w1" 3 1 1 1 1 true false false true
    [⟨1, 0⟩] [⟨1, 1⟩] 0 outC1 rfl

/-- C3 counterexample: with `export_model = true` but `use_wandb = false`, the
run completes and no ONNX export is performed — the export flag alone does not
trigger the export. -/
theorem C3_counterexample :
    (train_model demoFW "r3" 3 1 1 1 1 false false true false
        [⟨1, 0⟩] [⟨1, 1⟩] (0 : ℚ)).map (fun out => out.1.filter Event.isOnnx)
      = some [] := by decide

/-- C3 (amended): after training, the model is exported to ONNX exactly when
both `export_model` and `use_wandb` are enabled; the export is a single file
`models/onnx/pokedec_model_<runId>.onnx`, traced on a sample input consisting
of a single image. -/
theorem C3_onnx_export_flag {M O : Type} (fw : Framework M O)
    (runId : String) (nc bs ne : Nat) (lr wd : ℚ) (uw prof ex sw : Bool)
    (tB vB : List Batch) (m0 : M) (out : List Event × M)
    (h : train_model fw runId nc bs ne lr wd uw prof ex sw tB vB m0 = some out) :
    out.1.filter Event.isOnnx
      = if ex && uw then [Event.evOnnxExport (onnxPath runId) 1] else [] := by
  obtain ⟨st, hre, hout⟩ :=
    train_model_inv fw runId nc bs ne lr wd uw prof ex sw tB vB m0 out h
  obtain ⟨suf, hev, hmem⟩ :=
    runEpochs_events_shape fw prof uw tB vB _ _ ne 0 _ st hre
  rw [hout, hev]
  rw [List.filter_append, List.filter_append, List.filter_append]
  rw [filter_eq_nil_of_false _ (fun ev hm => (isLoopEv_not_save_onnx ev (hmem ev hm)).2)]
  have hinit : ((initState runId nc bs ne lr wd uw sw m0 : LoopState M)).events.filter
      Event.isOnnx = [] := by
    cases uw <;> rfl
  rw [hinit]
  cases uw <;> cases ex <;> simp [Event.isOnnx, onnxPath]

/-- Witness for C3 (amended): a concrete run with tracking and export enabled
performs exactly the export `models/onnx/pokedec_model_w3.onnx` traced on one
sample. -/
theorem C3_witness :
    outC3.1.filter Event.isOnnx = [Event.evOnnxExport (onnxPath "w3") 1] :=
  C3_onnx_export_flag demoFW "w3" 3 1 1 1 1 true false true false
    [⟨1, 0⟩] [⟨1, 1⟩] 0 outC3 rfl

/-- C6: when tracking is enabled, the run's trace contains exactly one
`wandb.log` metrics record per epoch, in epoch order — each epoch index below
`num_epochs` appears exactly once and no other index appears, so each record is
written once and never rewritten.  By construction of `MetricsRecord`, every
such record carries exactly the four scalars `train_loss`, `train_accuracy`,
`val_loss` and `val_accuracy`. -/
theorem C6_metrics_logged_once {M O : Type} (fw : Framework M O)
    (runId : String) (nc bs ne : Nat) (lr wd : ℚ) (prof ex sw : Bool)
    (tB vB : List Batch) (m0 : M) (out : List Event × M)
    (h : train_model fw runId nc bs ne lr wd true prof ex sw tB vB m0 = some out) :
    logEpochs out.1 = List.range ne := by
  obtain ⟨st, hre, hout⟩ :=
    train_model_inv fw runId nc bs ne lr wd true prof ex sw tB vB m0 out h
  have hlog := runEpochs_logEpochs fw prof tB vB _ _ ne 0 _ st hre
  rw [hout]
  rw [logEpochs_append, logEpochs_append, hlog]
  have hinit : logEpochs ((initState runId nc bs ne lr wd true sw m0 : LoopState M)).events
      = [] := rfl
  rw [hinit]
  rw [List.range_eq_range']
  cases ex <;> simp [logEpochs, Event.logOf]

/-- Witness for C6: a concrete two-epoch tracked run logs metrics exactly for
epochs 0 and 1, in order. -/
theorem C6_witness : logEpochs outC6.1 = List.range 2 :=
  C6_metrics_logged_once demoFW "w6" 3 1 2 1 1 false false true
    [⟨1, 0⟩] [⟨1, 1⟩] 0 outC6 rfl

/-- C8: (i) a completed run performs exactly `num_epochs` scheduler steps, one
per loop iteration — the loop runs for exactly the configured number of epochs
and terminates; (ii) within every epoch the events occur in the order: the
training phase over all training batches, then the validation phase over all
validation batches, then the metric log (when tracking is on), then the
scheduler step. -/
theorem C8_epoch_count_and_order :
    (∀ (M O : Type) (fw : Framework M O) (runId : String) (nc bs ne : Nat)
        (lr wd : ℚ) (uw prof ex sw : Bool) (tB vB : List Batch) (m0 : M)
        (out : List Event × M),
        train_model fw runId nc bs ne lr wd uw prof ex sw tB vB m0 = some out →
        (out.1.filter Event.isSchedStep).length = ne)
  ∧ (∀ (M O : Type) (fw : Framework M O) (prof uw : Bool) (wd : ℚ)
        (tB vB : List Batch) (tL vL e : Nat) (lr : ℚ) (p : M) (eo : EpochOut M),
        runEpoch fw prof uw wd tB vB tL vL e lr p = some eo →
        eo.events
          = (trainPhase fw prof lr wd tB p ⟨0, 0, 0⟩).events
            ++ (valPhase fw vB (trainPhase fw prof lr wd tB p ⟨0, 0, 0⟩).params
                  ⟨0, 0, 0⟩).events
            ++ (if uw then [Event.evWandbLog e eo.metrics] else [])
            ++ [Event.evSchedStep]) := by
  constructor
  · intro M O fw runId nc bs ne lr wd uw prof ex sw tB vB m0 out h
    obtain ⟨st, hre, hout⟩ :=
      train_model_inv fw runId nc bs ne lr wd uw prof ex sw tB vB m0 out h
    have hsched := runEpochs_schedSteps fw prof uw tB vB _ _ ne 0 _ st hre
    have hinit : (((initState runId nc bs ne lr wd uw sw m0 : LoopState M)).events.filter
        Event.isSchedStep).length = 0 := by
      cases uw <;> rfl
    rw [hinit] at hsched
    rw [hout]
    rw [List.filter_append, List.filter_append, List.length_append, List.length_append,
      hsched]
    cases uw <;> cases ex <;> simp [Event.isSchedStep]
  · intro M O fw prof uw wd tB vB tL vL e lr p eo h
    exact (runEpoch_inv fw prof uw wd tB vB tL vL e lr p eo h).2.1

/-- Witness for C8: a concrete untracked two-epoch run performs exactly two
scheduler steps, and a concrete tracked epoch's events decompose as training
phase, then validation phase, then the metric log, then the scheduler step. -/
theorem C8_witness :
    (outC8.1.filter Event.isSchedStep).length = 2
      ∧ eoC8.events
        = (trainPhase demoFW false 1 1 [⟨1, 0⟩] (0 : ℚ) ⟨0, 0, 0⟩).events
          ++ (valPhase demoFW [⟨1, 1⟩]
                (trainPhase demoFW false 1 1 [⟨1, 0⟩] (0 : ℚ) ⟨0, 0, 0⟩).params
                ⟨0, 0, 0⟩).events
          ++ [Event.evWandbLog 0 eoC8.metrics]
          ++ [Event.evSchedStep] :=
  ⟨C8_epoch_count_and_order.1 ℚ ℚ demoFW "w8" 3 1 2 1 1 false false false true
      [⟨1, 0⟩] [⟨1, 1⟩] 0 outC8 rfl,
   C8_epoch_count_and_order.2 ℚ ℚ demoFW false true 1 [⟨1, 0⟩] [⟨1, 1⟩] 1 1 0 1 0
      eoC8 rfl⟩

/-- C2 counterexample: at the first epoch of a run with the script's default
configuration, the scheduler step leaves the optimizer's learning rate
unchanged (`StepLR(step_size=5, gamma=0.1)` only changes the value every fifth
step), contradicting "for every epoch, the learning rate after that epoch's
scheduler step differs from the learning rate before it". -/
theorem C2_counterexample :
    (epochStep demoFW false false [⟨1, 0⟩] [⟨1, 1⟩] 1 1 0 stC2).map LoopState.lr
      = some stC2.lr := rfl

/-- C2 (amended): `scheduler.step()` runs at the end of every epoch and always
advances the scheduler's step count, setting the optimizer's learning rate to
`lr0 * 0.1 ^ (count / 5)`; but the learning-rate value actually changes only at
every fifth step (when the new count is a multiple of 5, the rate is multiplied
by 0.1), and is left unchanged at all other epochs (for a nonzero base rate). -/
theorem C2_lr_schedule :
    (∀ (M O : Type) (fw : Framework M O) (prof uw : Bool) (tB vB : List Batch)
        (tL vL e : Nat) (st st' : LoopState M),
        epochStep fw prof uw tB vB tL vL e st = some st' →
        st'.lr = schedLR st.lr0 (st.schedCount + 1)
          ∧ st'.schedCount = st.schedCount + 1)
  ∧ (∀ (lr0 : ℚ) (c : Nat), lr0 ≠ 0 →
        (schedLR lr0 (c + 1) ≠ schedLR lr0 c ↔ (5 ∣ c + 1))) := by
  constructor
  · intro M O fw prof uw tB vB tL vL e st st' h
    obtain ⟨eo, -, hst⟩ := epochStep_inv fw prof uw tB vB tL vL e st st' h
    subst hst
    exact ⟨rfl, rfl⟩
  · intro lr0 c h0
    unfold schedLR
    rw [Nat.succ_div]
    by_cases hdvd : (5 : Nat) ∣ c + 1
    · rw [if_pos hdvd]
      simp only [hdvd, iff_true]
      intro hEq
      have h1 : ((1 : ℚ) / 10) ^ (c / 5 + 1) = ((1 : ℚ) / 10) ^ (c / 5) :=
        mul_left_cancel₀ h0 hEq
      rw [pow_succ] at h1
      have h2 : ((1 : ℚ) / 10) ^ (c / 5) ≠ 0 := pow_ne_zero _ (by norm_num)
      have h3 : (1 : ℚ) / 10 = 1 :=
        mul_left_cancel₀ h2 (h1.trans (mul_one _).symm)
      norm_num at h3
    · rw [if_neg hdvd]
      simp [hdvd]

/-- Witness for C2 (amended): one concrete epoch step advances the scheduler
count and sets the learning rate accordingly, and at the fifth step the rate
value genuinely changes. -/
theorem C2_witness :
    (stC2b'.lr = schedLR stC2b.lr0 (stC2b.schedCount + 1)
      ∧ stC2b'.schedCount = stC2b.schedCount + 1)
    ∧ (schedLR (1/10000 : ℚ) (4 + 1) ≠ schedLR (1/10000 : ℚ) 4 ↔ (5 ∣ 4 + 1)) :=
  ⟨C2_lr_schedule.1 ℚ ℚ demoFW false false [⟨1, 0⟩] [⟨1, 1⟩] 1 1 4 stC2b stC2b' rfl,
   C2_lr_schedule.2 (1/10000) 4 (by norm_num)⟩

namespace Pokedec

theorem execCalls_first_error {ε : Type} (oracle : Nat → Option ε) :
    ∀ (plan : List Call) (i k : Nat) (e : ε), k < plan.length →
      oracle (i + k) = some e → (∀ j, j < k → oracle (i + j) = none) →
      execCalls oracle plan i = (plan.take (k + 1), Except.error e) := by
  intro plan
  induction plan with
  | nil =>
    intro i k e hk
    simp at hk
  | cons c rest ih =>
    intro i k e hk hf hok
    cases k with
    | zero =>
      have h0 : oracle i = some e := by simpa using hf
      simp [execCalls, h0]
    | succ n =>
      have h0 : oracle i = none := by simpa using hok 0 (Nat.succ_pos n)
      have hf' : oracle (i + 1 + n) = some e := by
        have harith : i + 1 + n = i + (n + 1) := by omega
        rw [harith]; exact hf
      have hok' : ∀ j, j < n → oracle (i + 1 + j) = none := by
        intro j hj
        have harith : i + 1 + j = i + (j + 1) := by omega
        rw [harith]
        exact hok (j + 1) (by omega)
      have hk' : n < rest.length := by simpa using hk
      have hrec := ih (i + 1) n e hk' hf' hok'
      simp [execCalls, h0, hrec]

end Pokedec

/-- C4: `train_model` installs no error handling.  Modelling its body as the
straight-line sequence of framework calls `trainCallPlan` executed against an
oracle assigning each call position its outcome: if the first raising call is
at position `k`, execution attempts exactly the calls up to and including
position `k` — each at most once, in program order, with no retry and no
recovery calls after the failure — and returns that same exception to the
caller. -/
theorem C4_exception_propagation {ε : Type} (oracle : Nat → Option ε)
    (uw prof ex sw : Bool) (ne nT nV : Nat) (k : Nat) (e : ε)
    (hk : k < (trainCallPlan uw prof ex sw ne nT nV).length)
    (hfail : oracle k = some e)
    (hok : ∀ j, j < k → oracle j = none) :
    execCalls oracle (trainCallPlan uw prof ex sw ne nT nV) 0
      = ((trainCallPlan uw prof ex sw ne nT nV).take (k + 1), Except.error e) := by
  refine execCalls_first_error oracle (trainCallPlan uw prof ex sw ne nT nV) 0 k e hk ?_ ?_
  · simpa using hfail
  · intro j hj
    simpa using hok j hj

/-- Witness for C4: a concrete plan (tracked sweep run, one epoch, one batch
per loader) with the third call raising: exactly the first three calls are
attempted and the error is returned unchanged. -/
theorem C4_witness :
    execCalls (fun i => if i = 2 then some "boom" else none)
        (trainCallPlan true false true true 1 1 1) 0
      = ((trainCallPlan true false true true 1 1 1).take 3, Except.error "boom") :=
  C4_exception_propagation (fun i => if i = 2 then some "boom" else none)
    true false true true 1 1 1 2 "boom" (by decide) (by decide) (by decide)

/-- C10: the per-epoch statistics divisions are unguarded.  If either dataset
is empty (length zero, so zero samples are seen), the epoch faults on a
division by zero and the run aborts; conversely over non-empty datasets the
epoch completes, and since the per-batch correct count never exceeds the batch
size, every computed accuracy lies in [0, 1]. -/
theorem C10_unguarded_divisions {M O : Type} (fw : Framework M O)
    (prof uw : Bool) (wd lr : ℚ) (tB vB : List Batch) (e : Nat) (p : M) :
    (((tB.map Batch.size).sum = 0 ∨ (vB.map Batch.size).sum = 0) →
        runEpoch fw prof uw wd tB vB ((tB.map Batch.size).sum)
          ((vB.map Batch.size).sum) e lr p = none)
  ∧ ((∀ o b, fw.nCorrect o b ≤ b.size) → 0 < (tB.map Batch.size).sum →
      0 < (vB.map Batch.size).sum →
      (runEpoch fw prof uw wd tB vB ((tB.map Batch.size).sum)
          ((vB.map Batch.size).sum) e lr p).isSome = true
      ∧ ∀ eo, runEpoch fw prof uw wd tB vB ((tB.map Batch.size).sum)
            ((vB.map Batch.size).sum) e lr p = some eo →
          (0 ≤ eo.metrics.train_accuracy ∧ eo.metrics.train_accuracy ≤ 1
            ∧ 0 ≤ eo.metrics.val_accuracy ∧ eo.metrics.val_accuracy ≤ 1)) := by
  have htot : (trainPhase fw prof lr wd tB p ⟨0, 0, 0⟩).stats.total
      = (tB.map Batch.size).sum := by
    rw [trainPhase_total]
    simp
  have hvtot : (valPhase fw vB (trainPhase fw prof lr wd tB p ⟨0, 0, 0⟩).params
      ⟨0, 0, 0⟩).stats.total = (vB.map Batch.size).sum := by
    rw [valPhase_total]
    simp
  constructor
  · intro h0
    rcases h0 with h0 | h0
    · simp [runEpoch, divOrFault, h0]
    · by_cases ht : (tB.map Batch.size).sum = 0
      · simp [runEpoch, divOrFault, ht]
      · simp [runEpoch, divOrFault, natDivOrFault, ht, htot, h0]
  · intro hc ht hv
    constructor
    · simp [runEpoch, divOrFault, natDivOrFault, htot, hvtot, ht.ne', hv.ne']
    · intro eo heo
      obtain ⟨-, -, hacc, hvacc⟩ :=
        runEpoch_inv fw prof uw wd tB vB _ _ e lr p eo heo
      have hle : (trainPhase fw prof lr wd tB p ⟨0, 0, 0⟩).stats.correct
          ≤ (trainPhase fw prof lr wd tB p ⟨0, 0, 0⟩).stats.total :=
        trainPhase_correct_le fw prof lr wd hc tB p ⟨0, 0, 0⟩ (by simp)
      have hvle : (valPhase fw vB (trainPhase fw prof lr wd tB p ⟨0, 0, 0⟩).params
            ⟨0, 0, 0⟩).stats.correct
          ≤ (valPhase fw vB (trainPhase fw prof lr wd tB p ⟨0, 0, 0⟩).params
            ⟨0, 0, 0⟩).stats.total :=
        valPhase_correct_le fw hc vB _ ⟨0, 0, 0⟩ (by simp)
      rw [natDivOrFault, if_neg (by rw [htot]; exact ht.ne')] at hacc
      rw [natDivOrFault, if_neg (by rw [hvtot]; exact hv.ne')] at hvacc
      rw [Option.some_inj] at hacc hvacc
      have htpos : (0 : ℚ) < (trainPhase fw prof lr wd tB p ⟨0, 0, 0⟩).stats.total := by
        rw [htot]
        exact_mod_cast ht
      have hvpos : (0 : ℚ) < (valPhase fw vB (trainPhase fw prof lr wd tB p ⟨0, 0, 0⟩).params
          ⟨0, 0, 0⟩).stats.total := by
        rw [hvtot]
        exact_mod_cast hv
      refine ⟨?_, ?_, ?_, ?_⟩
      · rw [← hacc]
        exact div_nonneg (Nat.cast_nonneg _) (Nat.cast_nonneg _)
      · rw [← hacc]
        exact (div_le_one htpos).mpr (Nat.cast_le.mpr hle)
      · rw [← hvacc]
        exact div_nonneg (Nat.cast_nonneg _) (Nat.cast_nonneg _)
      · rw [← hvacc]
        exact (div_le_one hvpos).mpr (Nat.cast_le.mpr hvle)

/-- Witness for C10: with an empty training loader the concrete epoch faults;
with non-empty loaders it completes and both accuracies are within [0, 1]. -/
theorem C10_witness :
    runEpoch demoFW false false 1 ([] : List Batch) [⟨1, 1⟩] 0 1 0 1 (0 : ℚ) = none
    ∧ (runEpoch demoFW false false 1 [⟨2, 0⟩] [⟨2, 1⟩] 2 2 0 1 (0 : ℚ)).isSome = true
    ∧ (0 ≤ eoC10.metrics.train_accuracy ∧ eoC10.metrics.train_accuracy ≤ 1
        ∧ 0 ≤ eoC10.metrics.val_accuracy ∧ eoC10.metrics.val_accuracy ≤ 1) :=
  ⟨(C10_unguarded_divisions demoFW false false 1 1 [] [⟨1, 1⟩] 0 (0 : ℚ)).1 (Or.inl rfl),
   ((C10_unguarded_divisions demoFW false false 1 1 [⟨2, 0⟩] [⟨2, 1⟩] 0 (0 : ℚ)).2
      (fun _o b => le_refl b.size) (by decide) (by decide)).1,
   ((C10_unguarded_divisions demoFW false false 1 1 [⟨2, 0⟩] [⟨2, 1⟩] 0 (0 : ℚ)).2
      (fun _o b => le_refl b.size) (by decide) (by decide)).2 eoC10 rfl⟩
